import Mathlib

/-!
# Verification of the gotrue authentication core

A shallow embedding, in Lean 4, of the token/credential core of the
`tigrisdata/gotrue` service: the AES-CBC credential cipher
(`crypto/encrypter.go`), password authentication (`models/user.go`),
the grant orchestrator (`api/token.go`: `ResourceOwnerPasswordGrant`,
`RefreshTokenGrant`, `getExpiry`), API construction (`api/api.go`:
`NewAPIWithVersion`), and the refresh-token store protocol.

Modelling conventions:
* Go byte strings are `List Nat` with every element `< 256`;
  base64-encoded text is `List Char`.
* The AES block primitive (Go `crypto/aes` + `cipher.Block`) is an external
  collaborator; it is modelled as a structure carrying the documented
  contract of a 16-byte block cipher (encryption and decryption are
  mutually inverse length-preserving maps on 16-byte blocks).
* Go's `encoding/base64` `StdEncoding` is modelled concretely
  (`b64Encode` / `b64Decode`).
* Functions that can terminate the goroutine (Go `panic`, and zerolog
  `log.Fatal` which exits the process) are modelled in `Option`, with
  `none` standing for the abnormal termination.
* The document store is modelled as in-memory lists; store I/O errors
  (infrastructure failures) are outside the model.
-/

namespace GoTrue

/-- A value list is a Go byte string when every element is a byte. -/
def AllBytes (l : List Nat) : Prop := ∀ b ∈ l, b < 256

instance (l : List Nat) : Decidable (AllBytes l) := by
  unfold AllBytes; infer_instance

/-! ## Base64 (model of Go `encoding/base64` `StdEncoding`)

Go's standard base64 alphabet with `=` padding.  `b64Decode` returns
`none` exactly when Go's `DecodeString` returns a non-nil error. -/

/-- The standard base64 alphabet, in index order: the uppercase letters,
the lowercase letters, the ten digits, then plus and slash. -/
def b64Alphabet : List Char :=
  ((List.range 26).map (fun i => Char.ofNat (65 + i))) ++
  ((List.range 26).map (fun i => Char.ofNat (97 + i))) ++
  ((List.range 10).map (fun i => Char.ofNat (48 + i))) ++ ['+', '/']

/-- The alphabet character for a sextet value. -/
def b64CharOf (n : Nat) : Char := b64Alphabet.getD n '='

def b64IndexAux (c : Char) : List Char → Nat → Option Nat
  | [], _ => none
  | d :: ds, i => if d = c then some i else b64IndexAux c ds (i + 1)

/-- The sextet value of an alphabet character (`none` off the alphabet). -/
def b64Index (c : Char) : Option Nat := b64IndexAux c b64Alphabet 0

/-- Base64 encoding of a byte string, three bytes to four characters,
final group padded with `=` as in Go `StdEncoding.EncodeToString`. -/
def b64Encode : List Nat → List Char
  | [] => []
  | [b1] => [b64CharOf (b1 / 4), b64CharOf (b1 % 4 * 16), '=', '=']
  | [b1, b2] =>
      [b64CharOf (b1 / 4), b64CharOf (b1 % 4 * 16 + b2 / 16),
       b64CharOf (b2 % 16 * 4), '=']
  | b1 :: b2 :: b3 :: rest =>
      b64CharOf (b1 / 4) :: b64CharOf (b1 % 4 * 16 + b2 / 16) ::
      b64CharOf (b2 % 16 * 4 + b3 / 64) :: b64CharOf (b3 % 64) ::
      b64Encode rest

/-- Decoding of the final (possibly padded) base64 quartet. -/
def b64DecodeTail (c1 c2 c3 c4 : Char) : Option (List Nat) :=
  match b64Index c1, b64Index c2 with
  | some s1, some s2 =>
      if c3 = '=' then
        if c4 = '=' then some [s1 * 4 + s2 / 16] else none
      else
        match b64Index c3 with
        | some s3 =>
            if c4 = '=' then some [s1 * 4 + s2 / 16, s2 % 16 * 16 + s3 / 4]
            else
              match b64Index c4 with
              | some s4 =>
                  some [s1 * 4 + s2 / 16, s2 % 16 * 16 + s3 / 4,
                        s3 % 4 * 64 + s4]
              | none => none
        | none => none
  | _, _ => none

/-- Base64 decoding, as in Go `StdEncoding.DecodeString`: the input must
be a sequence of four-character groups, only the last of which may carry
`=` padding; any other input is an error (`none`). -/
def b64Decode : List Char → Option (List Nat)
  | [] => some []
  | c1 :: c2 :: c3 :: c4 :: rest =>
      match rest with
      | [] => b64DecodeTail c1 c2 c3 c4
      | _ :: _ =>
          match b64Index c1, b64Index c2, b64Index c3, b64Index c4,
                b64Decode rest with
          | some s1, some s2, some s3, some s4, some bs =>
              some ((s1 * 4 + s2 / 16) :: (s2 % 16 * 16 + s3 / 4) ::
                    (s3 % 4 * 64 + s4) :: bs)
          | _, _, _, _, _ => none
  | _ => none

theorem b64Index_b64CharOf (s : Nat) (h : s < 64) :
    b64Index (b64CharOf s) = some s := by
  have key : ∀ t : Fin 64, b64Index (b64CharOf t.val) = some t.val := by decide
  exact key ⟨s, h⟩

theorem b64CharOf_ne_pad (s : Nat) (h : s < 64) : b64CharOf s ≠ '=' := by
  have key : ∀ t : Fin 64, b64CharOf t.val ≠ '=' := by decide
  exact key ⟨s, h⟩

theorem b64Encode_ne_nil (l : List Nat) (h : l ≠ []) : b64Encode l ≠ [] := by
  match l with
  | [] => exact absurd rfl h
  | [b1] => simp [b64Encode]
  | [b1, b2] => simp [b64Encode]
  | b1 :: b2 :: b3 :: rest => simp [b64Encode]

/-- Round trip of the base64 model: decoding an encoding recovers the
input byte string exactly. -/
theorem b64Decode_b64Encode (l : List Nat) (h : AllBytes l) :
    b64Decode (b64Encode l) = some l := by
  induction l using b64Encode.induct with
  | case1 => simp [b64Encode, b64Decode]
  | case2 b1 =>
      have hb1 : b1 < 256 := h b1 (by simp)
      have i1 := b64Index_b64CharOf (b1 / 4) (by omega)
      have i2 := b64Index_b64CharOf (b1 % 4 * 16) (by omega)
      simp [b64Encode, b64Decode, b64DecodeTail, i1, i2]
      omega
  | case3 b1 b2 =>
      have hb1 : b1 < 256 := h b1 (by simp)
      have hb2 : b2 < 256 := h b2 (by simp)
      have i1 := b64Index_b64CharOf (b1 / 4) (by omega)
      have i2 := b64Index_b64CharOf (b1 % 4 * 16 + b2 / 16) (by omega)
      have i3 := b64Index_b64CharOf (b2 % 16 * 4) (by omega)
      have n3 := b64CharOf_ne_pad (b2 % 16 * 4) (by omega)
      simp [b64Encode, b64Decode, b64DecodeTail, i1, i2, i3, n3]
      omega
  | case4 b1 b2 b3 rest ih =>
      have hb1 : b1 < 256 := h b1 (by simp)
      have hb2 : b2 < 256 := h b2 (by simp)
      have hb3 : b3 < 256 := h b3 (by simp)
      have hrest : AllBytes rest := fun b hb => h b (by simp [hb])
      have ihr := ih hrest
      have i1 := b64Index_b64CharOf (b1 / 4) (by omega)
      have i2 := b64Index_b64CharOf (b1 % 4 * 16 + b2 / 16) (by omega)
      have i3 := b64Index_b64CharOf (b2 % 16 * 4 + b3 / 64) (by omega)
      have i4 := b64Index_b64CharOf (b3 % 64) (by omega)
      have n3 := b64CharOf_ne_pad (b2 % 16 * 4 + b3 / 64) (by omega)
      have n4 := b64CharOf_ne_pad (b3 % 64) (by omega)
      match hr : rest with
      | [] =>
          simp [b64Encode, b64Decode, b64DecodeTail, i1, i2, i3, i4, n3, n4]
          omega
      | r1 :: rtl =>
          have hne : b64Encode (r1 :: rtl) ≠ [] := b64Encode_ne_nil _ (by simp)
          match he : b64Encode (r1 :: rtl) with
          | [] => exact absurd he hne
          | e1c :: etl =>
              rw [he] at ihr
              simp only [b64Encode, he, b64Decode, i1, i2, i3, i4, ihr]
              simp
              omega

/-- Base64 encoding is injective on byte strings. -/
theorem b64Encode_inj (l1 l2 : List Nat) (h1 : AllBytes l1) (h2 : AllBytes l2)
    (he : b64Encode l1 = b64Encode l2) : l1 = l2 := by
  have r1 := b64Decode_b64Encode l1 h1
  have r2 := b64Decode_b64Encode l2 h2
  rw [he, r2] at r1
  exact (Option.some_inj.mp r1).symm

/-! ## XOR on byte strings -/

/-- Elementwise XOR of two byte strings (Go `dst[i] = a[i] ^ b[i]` inside
`cipher.NewCBCEncrypter`'s block loop). -/
def xorBytes (a b : List Nat) : List Nat := List.zipWith (fun x y => x ^^^ y) a b

theorem length_xorBytes (a b : List Nat) :
    (xorBytes a b).length = min a.length b.length := by
  simp [xorBytes]

theorem allBytes_xorBytes (a b : List Nat) (ha : AllBytes a) (hb : AllBytes b) :
    AllBytes (xorBytes a b) := by
  induction a generalizing b with
  | nil => intro x hx; simp [xorBytes] at hx
  | cons x xs ih =>
      match b with
      | [] => intro t ht; simp [xorBytes] at ht
      | y :: ys =>
          intro t ht
          simp only [xorBytes, List.zipWith, List.mem_cons] at ht
          rcases ht with rfl | ht
          · have h1 : x < 256 := ha x (by simp)
            have h2 : y < 256 := hb y (by simp)
            have h256 : (256 : Nat) = 2 ^ 8 := by norm_num
            rw [h256] at h1 h2 ⊢
            exact Nat.xor_lt_two_pow h1 h2
          · exact ih ys (fun u hu => ha u (by simp [hu]))
              (fun u hu => hb u (by simp [hu])) t ht

theorem xorBytes_cancel (p iv : List Nat) (h : p.length ≤ iv.length) :
    xorBytes (xorBytes p iv) iv = p := by
  induction p generalizing iv with
  | nil => simp [xorBytes]
  | cons x xs ih =>
      match iv with
      | [] => simp at h
      | y :: ys =>
          simp only [xorBytes, List.zipWith] at ih ⊢
          rw [Nat.xor_assoc, Nat.xor_self, Nat.xor_zero]
          rw [ih ys (by simpa using h)]

theorem xorBytes_left_cancel (p iv1 iv2 : List Nat) (h1 : iv1.length ≤ p.length)
    (h2 : iv1.length = iv2.length)
    (he : xorBytes p iv1 = xorBytes p iv2) : iv1 = iv2 := by
  induction iv1 generalizing p iv2 with
  | nil => match iv2 with
    | [] => rfl
    | y :: ys => simp at h2
  | cons x xs ih =>
      match p, iv2 with
      | [], _ => simp at h1
      | a :: as, [] => simp at h2
      | a :: as, y :: ys =>
          simp only [xorBytes, List.zipWith, List.cons.injEq] at he
          obtain ⟨hxy, hrest⟩ := he
          have hx : x = y := by
            have h3 := congrArg (fun t => a ^^^ t) hxy
            simpa [← Nat.xor_assoc, Nat.xor_self, Nat.zero_xor] using h3
          have := ih as ys (by simpa using h1) (by simpa using h2) hrest
          rw [hx, this]

/-! ## CBC block chaining, PKCS#7 padding, block chunking

These model the body of `EncryptWithIV` / `Decrypt`
(`crypto/encrypter.go`): Go's `cipher.NewCBCEncrypter(block, iv)` /
`NewCBCDecrypter` with `CryptBlocks` over full 16-byte blocks. -/

/-- CBC encryption over a list of plaintext blocks: each block is XORed
with the previous ciphertext block (initially the IV) and then passed
through the block cipher. -/
def cbcEncryptBlocks (E : List Nat → List Nat) : List Nat → List (List Nat) → List (List Nat)
  | _, [] => []
  | iv, p :: ps => E (xorBytes p iv) :: cbcEncryptBlocks E (E (xorBytes p iv)) ps

/-- CBC decryption over a list of ciphertext blocks. -/
def cbcDecryptBlocks (D : List Nat → List Nat) : List Nat → List (List Nat) → List (List Nat)
  | _, [] => []
  | iv, c :: cs => xorBytes (D c) iv :: cbcDecryptBlocks D c cs

/-- Split a byte string into consecutive 16-byte blocks; structural
recursion on a fuel bound so that the definition evaluates by kernel
reduction. -/
def toBlocksAux : Nat → List Nat → List (List Nat)
  | _, [] => []
  | 0, _ :: _ => []
  | fuel + 1, a :: rest =>
      ((a :: rest).take 16) :: toBlocksAux fuel ((a :: rest).drop 16)

/-- Split a byte string into consecutive 16-byte blocks. -/
def toBlocks (l : List Nat) : List (List Nat) := toBlocksAux l.length l

theorem toBlocksAux_congr (f1 : Nat) : ∀ (f2 : Nat) (l : List Nat),
    l.length ≤ f1 → l.length ≤ f2 → toBlocksAux f1 l = toBlocksAux f2 l := by
  induction f1 with
  | zero =>
      intro f2 l h1 _
      have : l = [] := List.eq_nil_of_length_eq_zero (by omega)
      subst this
      cases f2 <;> rfl
  | succ f ih =>
      intro f2 l h1 h2
      match l with
      | [] => cases f2 <;> rfl
      | a :: rest =>
          match f2 with
          | 0 => simp at h2
          | g + 1 =>
              simp only [List.length_cons] at h1 h2
              simp only [toBlocksAux]
              rw [ih g ((a :: rest).drop 16)
                (by simp only [List.length_drop, List.length_cons]; omega)
                (by simp only [List.length_drop, List.length_cons]; omega)]

theorem toBlocks_nil : toBlocks [] = [] := rfl

theorem toBlocks_cons (a : Nat) (rest : List Nat) :
    toBlocks (a :: rest) =
      ((a :: rest).take 16) :: toBlocks ((a :: rest).drop 16) := by
  simp only [toBlocks, List.length_cons, toBlocksAux]
  rw [toBlocksAux_congr rest.length ((a :: rest).drop 16).length
    ((a :: rest).drop 16) (by simp) (by simp)]

/-- PKCS#7-style padding as written in `EncryptWithIV`: always append
`16 - len % 16` copies of that same value (a full block when the input
is already aligned). -/
def padPKCS7 (l : List Nat) : List Nat :=
  l ++ List.replicate (16 - l.length % 16) (16 - l.length % 16)

theorem padPKCS7_ne_nil (l : List Nat) : padPKCS7 l ≠ [] := by
  have : 0 < 16 - l.length % 16 := by omega
  simp [padPKCS7]
  omega

theorem length_padPKCS7_dvd (l : List Nat) : 16 ∣ (padPKCS7 l).length := by
  simp [padPKCS7]
  omega

theorem allBytes_padPKCS7 (l : List Nat) (h : AllBytes l) :
    AllBytes (padPKCS7 l) := by
  intro b hb
  rw [padPKCS7, List.mem_append] at hb
  rcases hb with hb | hb
  · exact h b hb
  · have := List.eq_of_mem_replicate hb
    omega

theorem toBlocks_flatten (bs : List (List Nat))
    (h : ∀ b ∈ bs, b.length = 16) : toBlocks bs.flatten = bs := by
  induction bs with
  | nil => rfl
  | cons b rest ih =>
      have hb : b.length = 16 := h b (by simp)
      match b, hb with
      | x :: xs, hb =>
          have hx : (x :: xs) ++ rest.flatten = x :: (xs ++ rest.flatten) := by
            simp
          rw [List.flatten_cons, hx, toBlocks_cons, ← hx]
          rw [← hb, List.take_left, List.drop_left]
          rw [ih (fun c hc => h c (by simp [hc]))]

theorem length_flatten_blocks (bs : List (List Nat))
    (h : ∀ b ∈ bs, b.length = 16) : bs.flatten.length = 16 * bs.length := by
  induction bs with
  | nil => simp
  | cons b rest ih =>
      have hb : b.length = 16 := h b (by simp)
      simp only [List.flatten_cons, List.length_append, List.length_cons, hb,
        ih (fun c hc => h c (by simp [hc]))]
      ring

theorem allBytes_flatten (bs : List (List Nat))
    (h : ∀ b ∈ bs, AllBytes b) : AllBytes bs.flatten := by
  intro x hx
  rw [List.mem_flatten] at hx
  obtain ⟨b, hb, hxb⟩ := hx
  exact h b hb x hxb

theorem toBlocksAux_length_mem (fuel : Nat) : ∀ l : List Nat,
    l.length ≤ fuel → 16 ∣ l.length → ∀ b ∈ toBlocksAux fuel l,
    b.length = 16 := by
  induction fuel with
  | zero =>
      intro l h1 _ b hb
      have : l = [] := List.eq_nil_of_length_eq_zero (by omega)
      subst this
      simp [toBlocksAux] at hb
  | succ f ih =>
      intro l h1 hd b hb
      match l with
      | [] => simp [toBlocksAux] at hb
      | a :: rest =>
          have hd2 : 16 ∣ rest.length + 1 := by simpa using hd
          have hlen : 16 ≤ rest.length + 1 := Nat.le_of_dvd (by omega) hd2
          simp only [List.length_cons] at h1
          simp only [toBlocksAux, List.mem_cons] at hb
          rcases hb with rfl | hb
          · simp; omega
          · refine ih ((a :: rest).drop 16)
              (by simp only [List.length_drop, List.length_cons]; omega) ?_ b hb
            have hdl : ((a :: rest).drop 16).length = rest.length + 1 - 16 := by
              simp
            rw [hdl]
            omega

theorem toBlocks_length_mem (l : List Nat) :
    16 ∣ l.length → ∀ b ∈ toBlocks l, b.length = 16 :=
  fun hd => toBlocksAux_length_mem l.length l le_rfl hd

theorem toBlocksAux_bytes_mem (fuel : Nat) : ∀ l : List Nat,
    l.length ≤ fuel → AllBytes l → ∀ b ∈ toBlocksAux fuel l, AllBytes b := by
  induction fuel with
  | zero =>
      intro l h1 _ b hb
      have : l = [] := List.eq_nil_of_length_eq_zero (by omega)
      subst this
      simp [toBlocksAux] at hb
  | succ f ih =>
      intro l h1 h b hb
      match l with
      | [] => simp [toBlocksAux] at hb
      | a :: rest =>
          simp only [List.length_cons] at h1
          simp only [toBlocksAux, List.mem_cons] at hb
          rcases hb with rfl | hb
          · exact fun x hx => h x (List.take_subset _ _ hx)
          · exact ih ((a :: rest).drop 16)
              (by simp only [List.length_drop, List.length_cons]; omega)
              (fun x hx => h x (List.drop_subset _ _ hx)) b hb

theorem toBlocks_bytes_mem (l : List Nat) :
    AllBytes l → ∀ b ∈ toBlocks l, AllBytes b :=
  fun h => toBlocksAux_bytes_mem l.length l le_rfl h

/-! ## The AES block primitive

`crypto/encrypter.go` builds its cipher with Go's `aes.NewCipher(key)`,
an external collaborator.  It is modelled by its documented contract: a
`cipher.Block` with a 16-byte block size whose `Decrypt` inverts
`Encrypt` on every block (both are byte-preserving).  The `Key` field of
`AESBlockEncrypter` is folded into the constructed block cipher. -/

structure AESBlock where
  encBlock : List Nat → List Nat
  decBlock : List Nat → List Nat
  length_encBlock : ∀ b : List Nat, b.length = 16 → (encBlock b).length = 16
  bytes_encBlock : ∀ b : List Nat, b.length = 16 → AllBytes b →
    AllBytes (encBlock b)
  decBlock_encBlock : ∀ b : List Nat, b.length = 16 → AllBytes b →
    decBlock (encBlock b) = b

/-- The block map of a block cipher is injective on 16-byte blocks. -/
theorem AESBlock.encBlock_inj (B : AESBlock) (b1 b2 : List Nat)
    (h1 : b1.length = 16) (hb1 : AllBytes b1)
    (h2 : b2.length = 16) (hb2 : AllBytes b2)
    (he : B.encBlock b1 = B.encBlock b2) : b1 = b2 := by
  have r1 := B.decBlock_encBlock b1 h1 hb1
  have r2 := B.decBlock_encBlock b2 h2 hb2
  rw [← r1, ← r2, he]

theorem cbcEncryptBlocks_mem (B : AESBlock) (ps : List (List Nat))
    (iv : List Nat) (hiv : iv.length = 16) (hivb : AllBytes iv)
    (hps : ∀ p ∈ ps, p.length = 16 ∧ AllBytes p) :
    ∀ c ∈ cbcEncryptBlocks B.encBlock iv ps, c.length = 16 ∧ AllBytes c := by
  induction ps generalizing iv with
  | nil => simp [cbcEncryptBlocks]
  | cons p ps ih =>
      intro c hc
      have hp := hps p (by simp)
      have hxl : (xorBytes p iv).length = 16 := by
        rw [length_xorBytes, hp.1, hiv]; simp
      have hxb : AllBytes (xorBytes p iv) := allBytes_xorBytes _ _ hp.2 hivb
      have hcl : (B.encBlock (xorBytes p iv)).length = 16 :=
        B.length_encBlock _ hxl
      have hcb : AllBytes (B.encBlock (xorBytes p iv)) :=
        B.bytes_encBlock _ hxl hxb
      rw [cbcEncryptBlocks, List.mem_cons] at hc
      rcases hc with rfl | hc
      · exact ⟨hcl, hcb⟩
      · exact ih _ hcl hcb (fun q hq => hps q (by simp [hq])) c hc

/-- CBC decryption inverts CBC encryption block by block. -/
theorem cbcDecryptBlocks_cbcEncryptBlocks (B : AESBlock) (ps : List (List Nat))
    (iv : List Nat) (hiv : iv.length = 16) (hivb : AllBytes iv)
    (hps : ∀ p ∈ ps, p.length = 16 ∧ AllBytes p) :
    cbcDecryptBlocks B.decBlock iv (cbcEncryptBlocks B.encBlock iv ps) = ps := by
  induction ps generalizing iv with
  | nil => simp [cbcEncryptBlocks, cbcDecryptBlocks]
  | cons p ps ih =>
      have hp := hps p (by simp)
      have hxl : (xorBytes p iv).length = 16 := by
        rw [length_xorBytes, hp.1, hiv]; simp
      have hxb : AllBytes (xorBytes p iv) := allBytes_xorBytes _ _ hp.2 hivb
      rw [cbcEncryptBlocks, cbcDecryptBlocks]
      rw [B.decBlock_encBlock _ hxl hxb]
      rw [xorBytes_cancel p iv (by omega)]
      rw [ih _ (B.length_encBlock _ hxl) (B.bytes_encBlock _ hxl hxb)
        (fun q hq => hps q (by simp [hq]))]

theorem flatten_toBlocksAux (fuel : Nat) : ∀ l : List Nat,
    l.length ≤ fuel → (toBlocksAux fuel l).flatten = l := by
  induction fuel with
  | zero =>
      intro l h1
      have : l = [] := List.eq_nil_of_length_eq_zero (by omega)
      subst this
      rfl
  | succ f ih =>
      intro l h1
      match l with
      | [] => rfl
      | a :: rest =>
          simp only [List.length_cons] at h1
          simp only [toBlocksAux, List.flatten_cons]
          rw [ih ((a :: rest).drop 16)
            (by simp only [List.length_drop, List.length_cons]; omega),
            List.take_append_drop]

theorem flatten_toBlocks (l : List Nat) : (toBlocks l).flatten = l :=
  flatten_toBlocksAux l.length l le_rfl

theorem getLast?_padPKCS7 (l : List Nat) :
    (padPKCS7 l).getLast? = some (16 - l.length % 16) := by
  have hk : 16 - l.length % 16 = (16 - l.length % 16 - 1) + 1 := by omega
  rw [padPKCS7, List.getLast?_append_of_ne_nil _ (by simp; omega)]
  rw [hk, List.replicate_succ', List.getLast?_concat]

/-! ## The credential cipher (`crypto/encrypter.go`, `AESBlockEncrypter`)

`none` models a Go panic: `aes.NewCipher` key errors are folded into the
`AESBlock` parameter, `cipher.NewCBCEncrypter` / `NewCBCDecrypter` panic
on an IV whose length differs from the block size, `CryptBlocks` panics
on partial blocks, and `Decrypt` itself calls `panic(err)` when the
ciphertext is not valid base64. -/

/-- Model of `EncryptWithIV(plaintext, ivBytes)`: CBC-encrypt the PKCS#7-padded
plaintext under the caller-supplied IV and return the base64 ciphertext
together with the base64 IV. -/
def EncryptWithIV (B : AESBlock) (plaintext ivBytes : List Nat) :
    Option (List Char × List Char) :=
  if ivBytes.length = 16 then
    some (b64Encode ((cbcEncryptBlocks B.encBlock ivBytes
            (toBlocks (padPKCS7 plaintext))).flatten),
          b64Encode ivBytes)
  else none

/-- Model of `Encrypt(plaintext)` draws a fresh random 16-byte IV with
`io.ReadFull(rand.Reader, ...)` and defers to `EncryptWithIV`; the random
draw is modelled as the `ivBytes` parameter. -/
def Encrypt (B : AESBlock) (plaintext ivBytes : List Nat) :
    Option (List Char × List Char) :=
  EncryptWithIV B plaintext ivBytes

/-- Model of `Decrypt(ciphertextBase64, ivBase64)`: base64-decode both arguments
(a ciphertext decode error is `panic(err)`; an IV decode error is only
logged, after which CBC initialization panics on the short decoded IV),
CBC-decrypt, and strip the trailing padding whose length is read from
the last plaintext byte (an out-of-range length is a slice-bounds
panic). -/
def Decrypt (B : AESBlock) (ciphertextBase64 ivBase64 : List Char) :
    Option (List Nat) :=
  match b64Decode ciphertextBase64 with
  | none => none
  | some ciphertext =>
      match b64Decode ivBase64 with
      | none => none
      | some ivBytes =>
          if ivBytes.length = 16 then
            if 16 ∣ ciphertext.length then
              let padded := (cbcDecryptBlocks B.decBlock ivBytes
                  (toBlocks ciphertext)).flatten
              match padded.getLast? with
              | none => none
              | some padLength =>
                  if padLength ≤ padded.length then
                    some (padded.take (padded.length - padLength))
                  else none
            else none
          else none

/-! ## The user aggregate (`models/user.go`) -/

/-- The fields of `models.User` that the authentication core reads:
identity, audience scoping, the stored credential (base64 ciphertext and
base64 IV), and the confirmation timestamp (a nullable pointer in Go,
here an `Option`). -/
structure User where
  InstanceID : Nat
  ID : Nat
  Aud : String
  Email : String
  EncryptedPassword : List Char
  EncryptionIV : List Char
  ConfirmedAt : Option Nat
deriving DecidableEq, Repr

/-- Model of `User.IsConfirmed`: a user is confirmed when `ConfirmedAt` is set. -/
def User.IsConfirmed (u : User) : Bool := u.ConfirmedAt.isSome

/-- Model of `User.Authenticate(password, encrypter)`: base64-decode the stored
IV (on error: log and report not-authenticated), re-encrypt the
presented password deterministically under that IV and compare with the
stored ciphertext.  `none` models the panic that `EncryptWithIV` raises
when the decoded IV is not block-sized. -/
def User.Authenticate (B : AESBlock) (password : List Nat) (u : User) :
    Option Bool :=
  match b64Decode u.EncryptionIV with
  | none => some false
  | some ivBytes =>
      match EncryptWithIV B password ivBytes with
      | none => none
      | some r => some (decide (u.EncryptedPassword = r.1))

/-! ## A concrete block cipher instance

Used only to instantiate witnesses: it satisfies the `AESBlock`
contract (byte-preserving, self-inverting on blocks). -/

theorem incMap_cancel (b : List Nat) (hb : AllBytes b) :
    (b.map (fun x => (x + 1) % 256)).map (fun x => (x + 255) % 256) = b := by
  induction b with
  | nil => simp
  | cons x xs ih =>
      have hx : x < 256 := hb x (by simp)
      simp only [List.map_cons, List.cons.injEq]
      exact ⟨by omega, ih (fun u hu => hb u (by simp [hu]))⟩

/-- A toy 16-byte block cipher (add one to each byte, modulo 256). -/
def incBlock : AESBlock where
  encBlock b := b.map (fun x => (x + 1) % 256)
  decBlock b := b.map (fun x => (x + 255) % 256)
  length_encBlock b hb := by simp [hb]
  bytes_encBlock b _ _ := by
    intro x hx
    simp only [List.mem_map] at hx
    obtain ⟨y, _, rfl⟩ := hx
    omega
  decBlock_encBlock b _ hbb := incMap_cancel b hbb

/-! ## Round trip of the credential cipher -/

theorem take_padPKCS7 (l : List Nat) :
    (padPKCS7 l).take ((padPKCS7 l).length - (16 - l.length % 16)) = l := by
  have hlen : (padPKCS7 l).length = l.length + (16 - l.length % 16) := by
    simp [padPKCS7]
  rw [hlen]
  have hsub : l.length + (16 - l.length % 16) - (16 - l.length % 16) = l.length := by
    omega
  rw [hsub, padPKCS7]
  exact List.take_left _ _

theorem Decrypt_EncryptWithIV (B : AESBlock) (plaintext ivBytes : List Nat)
    (hp : AllBytes plaintext) (hiv : ivBytes.length = 16)
    (hivb : AllBytes ivBytes) (c64 iv64 : List Char)
    (henc : EncryptWithIV B plaintext ivBytes = some (c64, iv64)) :
    Decrypt B c64 iv64 = some plaintext := by
  rw [EncryptWithIV, if_pos hiv] at henc
  simp only [Option.some.injEq, Prod.mk.injEq] at henc
  obtain ⟨hc, hi⟩ := henc
  have hpadb : AllBytes (padPKCS7 plaintext) := allBytes_padPKCS7 _ hp
  have hpdvd : 16 ∣ (padPKCS7 plaintext).length := length_padPKCS7_dvd _
  have hblocks : ∀ b ∈ toBlocks (padPKCS7 plaintext),
      b.length = 16 ∧ AllBytes b :=
    fun b hb => ⟨toBlocks_length_mem _ hpdvd b hb, toBlocks_bytes_mem _ hpadb b hb⟩
  have hcs := cbcEncryptBlocks_mem B (toBlocks (padPKCS7 plaintext))
    ivBytes hiv hivb hblocks
  have hctb : AllBytes (cbcEncryptBlocks B.encBlock ivBytes
      (toBlocks (padPKCS7 plaintext))).flatten :=
    allBytes_flatten _ (fun c hc2 => (hcs c hc2).2)
  have hctlen : (cbcEncryptBlocks B.encBlock ivBytes
        (toBlocks (padPKCS7 plaintext))).flatten.length =
      16 * (cbcEncryptBlocks B.encBlock ivBytes
        (toBlocks (padPKCS7 plaintext))).length :=
    length_flatten_blocks _ (fun c hc2 => (hcs c hc2).1)
  have e1 : b64Decode c64 = some (cbcEncryptBlocks B.encBlock ivBytes
      (toBlocks (padPKCS7 plaintext))).flatten := by
    rw [← hc]; exact b64Decode_b64Encode _ hctb
  have e2 : b64Decode iv64 = some ivBytes := by
    rw [← hi]; exact b64Decode_b64Encode _ hivb
  have hdvd : 16 ∣ (cbcEncryptBlocks B.encBlock ivBytes
      (toBlocks (padPKCS7 plaintext))).flatten.length := by
    rw [hctlen]; exact Dvd.intro _ rfl
  have e3 : toBlocks (cbcEncryptBlocks B.encBlock ivBytes
        (toBlocks (padPKCS7 plaintext))).flatten =
      cbcEncryptBlocks B.encBlock ivBytes (toBlocks (padPKCS7 plaintext)) :=
    toBlocks_flatten _ (fun c hc2 => (hcs c hc2).1)
  have e4 : cbcDecryptBlocks B.decBlock ivBytes
        (cbcEncryptBlocks B.encBlock ivBytes (toBlocks (padPKCS7 plaintext))) =
      toBlocks (padPKCS7 plaintext) :=
    cbcDecryptBlocks_cbcEncryptBlocks B _ ivBytes hiv hivb hblocks
  have e5 : (toBlocks (padPKCS7 plaintext)).flatten = padPKCS7 plaintext :=
    flatten_toBlocks _
  have e6 : (padPKCS7 plaintext).getLast? = some (16 - plaintext.length % 16) :=
    getLast?_padPKCS7 _
  have e7 : 16 - plaintext.length % 16 ≤ (padPKCS7 plaintext).length := by
    simp [padPKCS7]
  simp only [Decrypt, e1, e2]
  rw [if_pos hiv, if_pos hdvd]
  simp only [e3, e4, e5, e6]
  rw [if_pos e7]
  rw [take_padPKCS7]

/-- A sample IV and a sample user for concrete instantiations. -/
def sampleIV : List Nat := List.replicate 16 7

def sampleUser : User :=
  { InstanceID := 0, ID := 1, Aud := "api", Email := "user@example.com",
    EncryptedPassword :=
      ((EncryptWithIV incBlock [104, 105] sampleIV).getD ([], [])).1,
    EncryptionIV := b64Encode sampleIV,
    ConfirmedAt := some 0 }

/-- C5: for every AES block cipher, every plaintext byte string of
arbitrary length (including the empty string and strings not aligned to
the 16-byte block size) and every 16-byte random IV drawn by `Encrypt`,
`Decrypt` applied to the (ciphertext, iv) pair returned by `Encrypt`
returns exactly the original plaintext. -/
theorem decrypt_encrypt_roundtrip (B : AESBlock) (plaintext ivBytes : List Nat)
    (hp : AllBytes plaintext) (hiv : ivBytes.length = 16)
    (hivb : AllBytes ivBytes) (c64 iv64 : List Char)
    (henc : Encrypt B plaintext ivBytes = some (c64, iv64)) :
    Decrypt B c64 iv64 = some plaintext :=
  Decrypt_EncryptWithIV B plaintext ivBytes hp hiv hivb c64 iv64 henc

/-- Witness for C5 at the two-byte (unaligned) plaintext [104, 105]. -/
theorem decrypt_encrypt_roundtrip_witness :
    Decrypt incBlock
      ((Encrypt incBlock [104, 105] sampleIV).getD ([], [])).1
      ((Encrypt incBlock [104, 105] sampleIV).getD ([], [])).2 =
      some [104, 105] := by
  refine decrypt_encrypt_roundtrip incBlock [104, 105] sampleIV
    (by decide) (by decide) (by decide) _ _ ?_
  decide

/-- C4: for every password and every stored credential whose
`EncryptionIV` is a valid base64 encoding of a block-size IV,
`User.Authenticate` reports `true` exactly when the ciphertext that
`EncryptWithIV` re-derives from the password under the decoded stored IV
equals the stored `EncryptedPassword`; and when the stored IV fails
base64 decoding, `User.Authenticate` reports `false`. -/
theorem authenticate_equivalence (B : AESBlock) (password : List Nat)
    (u : User) :
    (∀ ivBytes : List Nat, b64Decode u.EncryptionIV = some ivBytes →
      ivBytes.length = 16 →
      (User.Authenticate B password u = some true ↔
        (EncryptWithIV B password ivBytes).map Prod.fst =
          some u.EncryptedPassword)) ∧
    (b64Decode u.EncryptionIV = none →
      User.Authenticate B password u = some false) := by
  constructor
  · intro ivBytes hdec hlen
    simp only [User.Authenticate, hdec, EncryptWithIV, if_pos hlen]
    simp only [Option.map_some', Option.some.injEq, decide_eq_true_eq]
    exact eq_comm
  · intro hdec
    simp only [User.Authenticate, hdec]

/-- Witness for C4: the sample user authenticates with the password it
was created from, and a user with a non-base64 IV is rejected. -/
theorem authenticate_equivalence_witness :
    User.Authenticate incBlock [104, 105] sampleUser = some true ∧
    User.Authenticate incBlock [104, 105]
      { sampleUser with EncryptionIV := ['!'] } = some false := by
  constructor
  · rw [(authenticate_equivalence incBlock [104, 105] sampleUser).1 sampleIV
      (by decide) (by decide)]
    decide
  · exact (authenticate_equivalence incBlock [104, 105]
      { sampleUser with EncryptionIV := ['!'] }).2 (by decide)

/-! ## IV distinctness (CBC first-block injectivity in the IV) -/

theorem toBlocks_ne_nil (l : List Nat) (h : l ≠ []) : toBlocks l ≠ [] := by
  match l with
  | [] => exact absurd rfl h
  | a :: rest => rw [toBlocks_cons]; simp

/-- With a fixed plaintext block sequence, distinct IVs give distinct
CBC ciphertext streams: the first ciphertext block already differs. -/
theorem cbc_flatten_iv_inj (B : AESBlock) (ps : List (List Nat))
    (hne : ps ≠ []) (hps : ∀ p ∈ ps, p.length = 16 ∧ AllBytes p)
    (iv1 iv2 : List Nat) (h1 : iv1.length = 16) (h1b : AllBytes iv1)
    (h2 : iv2.length = 16) (h2b : AllBytes iv2)
    (heq : (cbcEncryptBlocks B.encBlock iv1 ps).flatten =
      (cbcEncryptBlocks B.encBlock iv2 ps).flatten) : iv1 = iv2 := by
  match ps, hne with
  | p :: rest, _ =>
      have hp := hps p (by simp)
      have hx1l : (xorBytes p iv1).length = 16 := by
        rw [length_xorBytes, hp.1, h1]; simp
      have hx2l : (xorBytes p iv2).length = 16 := by
        rw [length_xorBytes, hp.1, h2]; simp
      have hx1b : AllBytes (xorBytes p iv1) := allBytes_xorBytes _ _ hp.2 h1b
      have hx2b : AllBytes (xorBytes p iv2) := allBytes_xorBytes _ _ hp.2 h2b
      have hc1l : (B.encBlock (xorBytes p iv1)).length = 16 :=
        B.length_encBlock _ hx1l
      have hc2l : (B.encBlock (xorBytes p iv2)).length = 16 :=
        B.length_encBlock _ hx2l
      rw [cbcEncryptBlocks, cbcEncryptBlocks, List.flatten_cons,
        List.flatten_cons] at heq
      have ht := congrArg (List.take 16) heq
      have e1 : (B.encBlock (xorBytes p iv1) ++
          (cbcEncryptBlocks B.encBlock (B.encBlock (xorBytes p iv1))
            rest).flatten).take 16 = B.encBlock (xorBytes p iv1) := by
        rw [← hc1l]; exact List.take_left _ _
      have e2 : (B.encBlock (xorBytes p iv2) ++
          (cbcEncryptBlocks B.encBlock (B.encBlock (xorBytes p iv2))
            rest).flatten).take 16 = B.encBlock (xorBytes p iv2) := by
        rw [← hc2l]; exact List.take_left _ _
      rw [e1, e2] at ht
      have hx := B.encBlock_inj _ _ hx1l hx1b hx2l hx2b ht
      exact xorBytes_left_cancel p iv1 iv2 (by omega) (by omega) hx

/-- C9: for every block cipher, plaintext, and two distinct 16-byte IVs,
`EncryptWithIV` returns different base64 ciphertexts, hence two `Encrypt`
invocations of the same plaintext that draw different random IVs yield
different ciphertexts. -/
theorem encrypt_iv_distinct (B : AESBlock) (plaintext iv1 iv2 : List Nat)
    (hp : AllBytes plaintext)
    (h1 : iv1.length = 16) (h1b : AllBytes iv1)
    (h2 : iv2.length = 16) (h2b : AllBytes iv2)
    (hne : iv1 ≠ iv2) (c1 o1 c2 o2 : List Char)
    (he1 : EncryptWithIV B plaintext iv1 = some (c1, o1))
    (he2 : EncryptWithIV B plaintext iv2 = some (c2, o2)) :
    c1 ≠ c2 := by
  rw [EncryptWithIV, if_pos h1] at he1
  rw [EncryptWithIV, if_pos h2] at he2
  simp only [Option.some.injEq, Prod.mk.injEq] at he1 he2
  obtain ⟨hc1, -⟩ := he1
  obtain ⟨hc2, -⟩ := he2
  intro hcc
  have hpadb : AllBytes (padPKCS7 plaintext) := allBytes_padPKCS7 _ hp
  have hpdvd : 16 ∣ (padPKCS7 plaintext).length := length_padPKCS7_dvd _
  have hblocks : ∀ b ∈ toBlocks (padPKCS7 plaintext),
      b.length = 16 ∧ AllBytes b :=
    fun b hb => ⟨toBlocks_length_mem _ hpdvd b hb, toBlocks_bytes_mem _ hpadb b hb⟩
  have hcs1 := cbcEncryptBlocks_mem B (toBlocks (padPKCS7 plaintext))
    iv1 h1 h1b hblocks
  have hcs2 := cbcEncryptBlocks_mem B (toBlocks (padPKCS7 plaintext))
    iv2 h2 h2b hblocks
  have hb1 : AllBytes (cbcEncryptBlocks B.encBlock iv1
      (toBlocks (padPKCS7 plaintext))).flatten :=
    allBytes_flatten _ (fun c hc => (hcs1 c hc).2)
  have hb2 : AllBytes (cbcEncryptBlocks B.encBlock iv2
      (toBlocks (padPKCS7 plaintext))).flatten :=
    allBytes_flatten _ (fun c hc => (hcs2 c hc).2)
  have hflat := b64Encode_inj _ _ hb1 hb2
    (by rw [hc1, hc2]; exact hcc)
  have := cbc_flatten_iv_inj B (toBlocks (padPKCS7 plaintext))
    (toBlocks_ne_nil _ (padPKCS7_ne_nil plaintext)) hblocks
    iv1 iv2 h1 h1b h2 h2b hflat
  exact hne this

/-- Witness for C9: the sample plaintext under two concrete distinct
IVs yields distinct ciphertexts. -/
theorem encrypt_iv_distinct_witness :
    ((EncryptWithIV incBlock [104, 105] (List.replicate 16 7)).getD
      ([], [])).1 ≠
    ((EncryptWithIV incBlock [104, 105] (List.replicate 16 9)).getD
      ([], [])).1 := by
  refine encrypt_iv_distinct incBlock [104, 105]
    (List.replicate 16 7) (List.replicate 16 9)
    (by decide) (by decide) (by decide) (by decide) (by decide) (by decide)
    ((EncryptWithIV incBlock [104, 105] (List.replicate 16 7)).getD
      ([], [])).1
    ((EncryptWithIV incBlock [104, 105] (List.replicate 16 7)).getD
      ([], [])).2
    ((EncryptWithIV incBlock [104, 105] (List.replicate 16 9)).getD
      ([], [])).1
    ((EncryptWithIV incBlock [104, 105] (List.replicate 16 9)).getD
      ([], [])).2
    ?_ ?_ <;> decide

/-! ## Behavior on malformed stored cryptographic data -/

/-- C6 (amended): a stored IV that fails base64 decoding makes
`User.Authenticate` return `false` without panicking, and a ciphertext
that fails base64 decoding makes `Decrypt` abort (`panic(err)` in the
source, modelled `none`) rather than return a value. -/
theorem crypto_decode_failure (B : AESBlock) (password : List Nat)
    (u : User) (c64 iv64 : List Char) :
    (b64Decode u.EncryptionIV = none →
      User.Authenticate B password u = some false) ∧
    (b64Decode c64 = none → Decrypt B c64 iv64 = none) := by
  constructor
  · intro h
    simp only [User.Authenticate, h]
  · intro h
    simp only [Decrypt, h]

/-- Witness for C6 (amended) at concrete malformed inputs. -/
theorem crypto_decode_failure_witness :
    User.Authenticate incBlock [104, 105]
      { sampleUser with EncryptionIV := ['*'] } = some false ∧
    Decrypt incBlock ['?'] (b64Encode sampleIV) = none := by
  constructor
  · exact (crypto_decode_failure incBlock [104, 105]
      { sampleUser with EncryptionIV := ['*'] } ['?'] (b64Encode sampleIV)).1
      (by decide)
  · exact (crypto_decode_failure incBlock [104, 105]
      { sampleUser with EncryptionIV := ['*'] } ['?'] (b64Encode sampleIV)).2
      (by decide)

/-- C6 counterexample: the claim "malformed stored IV or ciphertext
never panics" fails on the code.  `Decrypt` on a non-base64 ciphertext
reaches `panic(err)` (modelled `none`), and `User.Authenticate` on a
base64-valid IV of non-block length panics inside `EncryptWithIV`
(`cipher.NewCBCEncrypter` rejects the IV size) instead of returning
not-authenticated. -/
theorem crypto_decode_failure_counterexample :
    Decrypt incBlock ['!'] (b64Encode sampleIV) = none ∧
    User.Authenticate incBlock [104]
      { sampleUser with EncryptionIV := b64Encode [0] } = none := by
  constructor <;> decide

/-! ## The refresh-token store protocol

The record type of `models.RefreshToken` is reconstructed from its test
(`models/refresh_token_test.go`) and its callers.  The two store
operations `GrantAuthenticatedUser` and `GrantRefreshTokenSwap` live in
a model file that is not among the provided sources; they are modelled
from the specification text. -/

/-- Model of `models.RefreshToken`: owning user, opaque token string, and the
revocation flag. -/
structure RefreshToken where
  ID : Nat
  UserID : Nat
  Token : String
  Revoked : Bool
deriving DecidableEq, Repr

/-- Modelled from the spec: `models.GrantAuthenticatedUser` (refresh-token
model file absent from the sources) creates a new `Active` (non-revoked)
refresh token owned by the user, with no predecessor; the generated
unique ID and random token string are parameters. -/
def GrantAuthenticatedUser (tokens : List RefreshToken) (u : User)
    (newID : Nat) (newTokenStr : String) : RefreshToken × List RefreshToken :=
  let t : RefreshToken :=
    { ID := newID, UserID := u.ID, Token := newTokenStr, Revoked := false }
  (t, tokens ++ [t])

/-- Modelled from the spec: `models.GrantRefreshTokenSwap` (refresh-token
model file absent from the sources) atomically marks the presented token
`Revoked` and creates a successor `Active` token linked to the same
user, within one transaction — both effects appear in the single
returned store state. -/
def GrantRefreshTokenSwap (tokens : List RefreshToken) (u : User)
    (old : RefreshToken) (newID : Nat) (newTokenStr : String) :
    RefreshToken × List RefreshToken :=
  let t : RefreshToken :=
    { ID := newID, UserID := u.ID, Token := newTokenStr, Revoked := false }
  (t, (tokens.map (fun r => if r.ID = old.ID then { r with Revoked := true }
        else r)) ++ [t])

/-- The chain of store states produced by a login grant followed by `n`
sequential rotations, each presenting the previously issued token.
Token `i` carries ID `i` and token string `tok i`. -/
def rotationChain (u : User) (tok : Nat → String) : Nat → List RefreshToken
  | 0 => (GrantAuthenticatedUser [] u 0 (tok 0)).2
  | n + 1 =>
      (GrantRefreshTokenSwap (rotationChain u tok n) u
        { ID := n, UserID := u.ID, Token := tok n, Revoked := false }
        (n + 1) (tok (n + 1))).2

/-- The `i`-th (already rotated, revoked) token of a chain. -/
def revokedTok (u : User) (tok : Nat → String) (i : Nat) : RefreshToken :=
  { ID := i, UserID := u.ID, Token := tok i, Revoked := true }

/-- The `i`-th token of a chain while it is still active. -/
def activeTok (u : User) (tok : Nat → String) (i : Nat) : RefreshToken :=
  { ID := i, UserID := u.ID, Token := tok i, Revoked := false }

/-- Closed form of the rotation chain: the `n` prior tokens, revoked, in
creation order, followed by the single active newest token. -/
theorem rotationChain_eq (u : User) (tok : Nat → String) (n : Nat) :
    rotationChain u tok n =
      ((List.range n).map (revokedTok u tok)) ++ [activeTok u tok n] := by
  induction n with
  | zero => rfl
  | succ n ih =>
      rw [rotationChain, ih, GrantRefreshTokenSwap]
      simp only [List.map_append, List.map_map, List.map_cons, List.map_nil]
      have hmap : (List.range n).map ((fun r : RefreshToken =>
            if r.ID = n then { r with Revoked := true } else r) ∘
            revokedTok u tok) =
          (List.range n).map (revokedTok u tok) := by
        refine List.map_congr_left ?_
        intro i hi
        have : i < n := List.mem_range.mp hi
        simp only [Function.comp, revokedTok]
        rw [if_neg (by omega)]
      rw [hmap]
      have hrange : List.range (n + 1) = List.range n ++ [n] :=
        List.range_succ n
      rw [hrange]
      simp [revokedTok, activeTok]

/-- C1: after a login grant and `n` sequential rotations, the chain
holds exactly `n + 1` tokens, all owned by the user; exactly one is
Active (not revoked) — the newest, with the highest ID — and the `n`
prior tokens are all Revoked.  This holds after every rotation (the
statement is universal in `n`), so no intermediate state ever has zero
or two active tokens: each rotation atomically revokes the presented
token and creates its successor. -/
theorem refresh_rotation_exclusivity (u : User) (tok : Nat → String)
    (n : Nat) :
    ((rotationChain u tok n).filter (fun r => !r.Revoked)).length = 1 ∧
    (rotationChain u tok n).getLast? = some (activeTok u tok n) ∧
    (∀ r ∈ rotationChain u tok n, r.UserID = u.ID) ∧
    (∀ r ∈ rotationChain u tok n, r.Revoked = false ↔ r.ID = n) ∧
    (rotationChain u tok n).length = n + 1 := by
  rw [rotationChain_eq]
  refine ⟨?_, ?_, ?_, ?_, ?_⟩
  · rw [List.filter_append]
    have h1 : ((List.range n).map (revokedTok u tok)).filter
        (fun r => !r.Revoked) = [] := by
      rw [List.filter_eq_nil_iff]
      intro r hr
      simp only [List.mem_map] at hr
      obtain ⟨i, _, rfl⟩ := hr
      simp [revokedTok]
    rw [h1]
    simp [activeTok]
  · rw [List.getLast?_concat]
  · intro r hr
    rcases List.mem_append.mp hr with h | h
    · obtain ⟨i, _, rfl⟩ := List.mem_map.mp h
      rfl
    · simp only [List.mem_singleton] at h
      subst h
      rfl
  · intro r hr
    rcases List.mem_append.mp hr with h | h
    · obtain ⟨i, hi, rfl⟩ := List.mem_map.mp h
      have : i < n := List.mem_range.mp hi
      simp [revokedTok]
      omega
    · simp only [List.mem_singleton] at h
      subst h
      simp [activeTok]
  · simp

/-- Witness for C1 after three concrete rotations. -/
theorem refresh_rotation_exclusivity_witness :
    ((rotationChain sampleUser (fun _ => "t") 3).filter
      (fun r => !r.Revoked)).length = 1 ∧
    (rotationChain sampleUser (fun _ => "t") 3).length = 4 :=
  ⟨(refresh_rotation_exclusivity sampleUser (fun _ => "t") 3).1,
   (refresh_rotation_exclusivity sampleUser (fun _ => "t") 3).2.2.2.2⟩

/-! ## The grant orchestrator (`api/token.go`)

The document store is the in-memory lists of a `GrantState`; audit-log
writes are recorded as action names.  Event hooks and store I/O are
modelled as succeeding (their failures abort the transaction and are
infrastructure errors outside this model).  The token cache (hashicorp
`lru.Cache`) is modelled as an association list: the capacity-based LRU
eviction affects only which keys are present, which every statement
below takes as given.  Setting the session cookie on success and the
`LastSignInAt` / metering side effects are not modelled; the
cookie-clearing effect of the revoked-token path is (`cookieCleared`). -/

/-- Model of `AccessTokenResponse` (api/token.go): the OAuth2 success payload. -/
structure AccessTokenResponse where
  Token : String
  TokenType : String
  ExpiresIn : Int
  RefreshToken : String
deriving DecidableEq, Repr

/-- The store and cache state visible to the grant handlers. -/
structure GrantState where
  users : List User
  refreshTokens : List RefreshToken
  tokenCache : List (String × AccessTokenResponse)
  auditLog : List String
deriving DecidableEq, Repr

/-- How a grant request ends: an OAuth error (`oauthError(code, msg)` in
the source), a JSON success response, or a Go panic. -/
inductive GrantOutcome where
  | success (resp : AccessTokenResponse)
  | oauthErrorOut (code msg : String)
  | panicked
deriving DecidableEq, Repr

/-- A grant handler's result: outcome, resulting store/cache state, and
whether the session cookie was cleared. -/
structure GrantResult where
  outcome : GrantOutcome
  state : GrantState
  cookieCleared : Bool
deriving DecidableEq, Repr

/-- The per-request environment: block cipher, the base64+JSON `exp`
extraction used by `getExpiry`, the wall clock, the
`API.EnableTokenCache` flag, `config.JWT.Exp`, and the fresh values the
store and signer produce during this request. -/
structure GrantEnv where
  B : AESBlock
  parseExp : String → Option Int
  now : Int
  enableTokenCache : Bool
  jwtExp : Int
  newTokenID : Nat
  newTokenStr : String
  signedToken : String

/-- Model of `models.FindUserByEmailAndAudience`: first user matching
instance, email and audience. -/
def FindUserByEmailAndAudience (users : List User) (instanceID : Nat)
    (email aud : String) : Option User :=
  users.find? (fun u => u.InstanceID == instanceID && u.Email == email &&
    u.Aud == aud)

/-- Model of `models.FindUserWithRefreshToken`: look the token string up, then
its owning user; either lookup missing is a not-found error (`none`). -/
def FindUserWithRefreshToken (st : GrantState) (token : String) :
    Option (User × RefreshToken) :=
  match st.refreshTokens.find? (fun r => r.Token == token) with
  | none => none
  | some r =>
      match st.users.find? (fun u => u.ID == r.UserID) with
      | none => none
      | some u => some (u, r)

/-- hashicorp lru `Cache.Contains`. -/
def cacheContains (c : List (String × AccessTokenResponse)) (k : String) :
    Bool :=
  (c.find? (fun e => e.1 == k)).isSome

/-- hashicorp lru `Cache.Get`. -/
def cacheGet (c : List (String × AccessTokenResponse)) (k : String) :
    Option AccessTokenResponse :=
  (c.find? (fun e => e.1 == k)).map Prod.snd

/-- hashicorp lru `Cache.Remove`. -/
def cacheRemove (c : List (String × AccessTokenResponse)) (k : String) :
    List (String × AccessTokenResponse) :=
  c.filter (fun e => !(e.1 == k))

/-- hashicorp lru `Cache.Add` (insert or overwrite). -/
def cacheAdd (c : List (String × AccessTokenResponse)) (k : String)
    (v : AccessTokenResponse) : List (String × AccessTokenResponse) :=
  cacheRemove c k ++ [(k, v)]

/-- Model of `getExpiry` (api/token.go): read the `exp` claim out of the decoded
payload segment; on a parse failure log a warning and return 0.  The
base64+JSON decoding is the `parse` parameter. -/
def getExpiry (parse : String → Option Int) (tokenPayload : String) : Int :=
  match parse tokenPayload with
  | none => 0
  | some e => e

/-- Go `strings.Split` on a one-character separator: cut at every
separator occurrence, keeping empty segments. -/
def splitOnCharAux (sep : Char) : List Char → List Char → List (List Char)
  | [], acc => [acc.reverse]
  | c :: rest, acc =>
      if c = sep then acc.reverse :: splitOnCharAux sep rest []
      else splitOnCharAux sep rest (c :: acc)

def stringsSplit (s : String) (sep : Char) : List String :=
  (splitOnCharAux sep s.data []).map String.mk

/-- Model of `strings.Split(token, ".")[1]`: the payload segment of a JWT; Go
panics (index out of range) when the token has no dot. -/
def payloadSegment (token : String) : Option String :=
  match (stringsSplit token '.').drop 1 with
  | [] => none
  | s :: _ => some s

/-- The transactional tail of `ResourceOwnerPasswordGrant` (audit-log
entry, event hooks, `issueRefreshToken`, signing) followed by the
unconditional cache `Add` and the login metric.  `models.LoginAction`
is recorded in the audit log. -/
def fullPasswordGrant (env : GrantEnv) (st : GrantState) (user : User) :
    GrantResult :=
  let granted := GrantAuthenticatedUser st.refreshTokens user
    env.newTokenID env.newTokenStr
  let resp : AccessTokenResponse :=
    { Token := env.signedToken, TokenType := "bearer",
      ExpiresIn := env.jwtExp, RefreshToken := granted.1.Token }
  { outcome := GrantOutcome.success resp,
    state :=
      { st with
        refreshTokens := granted.2,
        auditLog := st.auditLog ++ ["login"],
        tokenCache := cacheAdd st.tokenCache user.Email resp },
    cookieCleared := false }

/-- Model of `ResourceOwnerPasswordGrant` (api/token.go lines 380-457): look the
user up by email and audience, reject unknown users, unconfirmed users
and wrong passwords with `invalid_grant`, serve a sufficiently fresh
cached response when caching is on, and otherwise run the full grant
transaction (evicting a stale cache entry first). -/
def ResourceOwnerPasswordGrant (env : GrantEnv) (st : GrantState)
    (instanceID : Nat) (username : String) (password : List Nat)
    (aud : String) : GrantResult :=
  match FindUserByEmailAndAudience st.users instanceID username aud with
  | none =>
      { outcome := GrantOutcome.oauthErrorOut "invalid_grant"
          "No user found with that email, or password invalid.",
        state := st, cookieCleared := false }
  | some user =>
      if !user.IsConfirmed then
        { outcome := GrantOutcome.oauthErrorOut "invalid_grant"
            "Email not confirmed",
          state := st, cookieCleared := false }
      else
        match User.Authenticate env.B password user with
        | none =>
            { outcome := GrantOutcome.panicked, state := st,
              cookieCleared := false }
        | some false =>
            { outcome := GrantOutcome.oauthErrorOut "invalid_grant"
                "No user found with that email, or password invalid.",
              state := st, cookieCleared := false }
        | some true =>
            if env.enableTokenCache && cacheContains st.tokenCache user.Email
            then
              match cacheGet st.tokenCache user.Email with
              | some cached =>
                  match payloadSegment cached.Token with
                  | none =>
                      { outcome := GrantOutcome.panicked, state := st,
                        cookieCleared := false }
                  | some payload =>
                      let exp := getExpiry env.parseExp payload
                      if env.now + 3600 ≥ exp then
                        fullPasswordGrant env
                          { st with tokenCache :=
                              cacheRemove st.tokenCache user.Email } user
                      else
                        { outcome := GrantOutcome.success
                            { cached with ExpiresIn := exp - env.now },
                          state := st, cookieCleared := false }
              | none => fullPasswordGrant env st user
            else fullPasswordGrant env st user

/-- Model of `RefreshTokenGrant` (api/token.go lines 460-519): require a
non-empty token, look it up with its user, reject unknown tokens and
revoked tokens (clearing the session cookie for the latter), and
otherwise rotate inside the transaction and return the new pair.
`models.TokenRefreshedAction` is recorded in the audit log. -/
def RefreshTokenGrant (env : GrantEnv) (st : GrantState)
    (tokenStr : String) : GrantResult :=
  if tokenStr = "" then
    { outcome := GrantOutcome.oauthErrorOut "invalid_request"
        "refresh_token required",
      state := st, cookieCleared := false }
  else
    match FindUserWithRefreshToken st tokenStr with
    | none =>
        { outcome := GrantOutcome.oauthErrorOut "invalid_grant"
            "Invalid Refresh Token",
          state := st, cookieCleared := false }
    | some (user, token) =>
        if token.Revoked then
          { outcome := GrantOutcome.oauthErrorOut "invalid_grant"
              "Invalid Refresh Token",
            state := st, cookieCleared := true }
        else
          let swapped := GrantRefreshTokenSwap st.refreshTokens user token
            env.newTokenID env.newTokenStr
          { outcome := GrantOutcome.success
              { Token := env.signedToken, TokenType := "bearer",
                ExpiresIn := env.jwtExp, RefreshToken := swapped.1.Token },
            state :=
              { st with
                refreshTokens := swapped.2,
                auditLog := st.auditLog ++ ["token_refreshed"] },
            cookieCleared := false }

/-- C2: refresh grant failure protocol.  An empty presented refresh
token yields `invalid_request`; a token string not found in the store
yields `invalid_grant`; a token found but marked `Revoked` yields the
very same external `invalid_grant` error as not-found, clears the
session cookie, and performs no store mutation whatsoever: the result
state is the input state, so no refresh token is revoked, created, or
altered. -/
theorem refresh_grant_failure_protocol (env : GrantEnv) (st : GrantState) :
    (RefreshTokenGrant env st "" =
      { outcome := GrantOutcome.oauthErrorOut "invalid_request"
          "refresh_token required",
        state := st, cookieCleared := false }) ∧
    (∀ tokenStr, tokenStr ≠ "" →
      FindUserWithRefreshToken st tokenStr = none →
      RefreshTokenGrant env st tokenStr =
        { outcome := GrantOutcome.oauthErrorOut "invalid_grant"
            "Invalid Refresh Token",
          state := st, cookieCleared := false }) ∧
    (∀ tokenStr user token, tokenStr ≠ "" →
      FindUserWithRefreshToken st tokenStr = some (user, token) →
      token.Revoked = true →
      RefreshTokenGrant env st tokenStr =
        { outcome := GrantOutcome.oauthErrorOut "invalid_grant"
            "Invalid Refresh Token",
          state := st, cookieCleared := true }) := by
  refine ⟨?_, ?_, ?_⟩
  · rw [RefreshTokenGrant, if_pos rfl]
  · intro t ht hf
    rw [RefreshTokenGrant, if_neg ht]
    simp only [hf]
  · intro t user token ht hf hrev
    rw [RefreshTokenGrant, if_neg ht]
    simp only [hf, hrev, if_true]

/-- An environment and a store state used by witnesses: one confirmed
user (`sampleUser`) and one already-revoked refresh token. -/
def sampleEnv : GrantEnv :=
  { B := incBlock, parseExp := fun _ => none, now := 1000,
    enableTokenCache := true, jwtExp := 7200, newTokenID := 5,
    newTokenStr := "tok5", signedToken := "h.p.s" }

def sampleState : GrantState :=
  { users := [sampleUser],
    refreshTokens := [{ ID := 0, UserID := 1, Token := "r0", Revoked := true }],
    tokenCache := [], auditLog := [] }

/-- Witness for C2: concrete empty, unknown, and revoked tokens. -/
theorem refresh_grant_failure_protocol_witness :
    RefreshTokenGrant sampleEnv sampleState "" =
      { outcome := GrantOutcome.oauthErrorOut "invalid_request"
          "refresh_token required",
        state := sampleState, cookieCleared := false } ∧
    RefreshTokenGrant sampleEnv sampleState "zz" =
      { outcome := GrantOutcome.oauthErrorOut "invalid_grant"
          "Invalid Refresh Token",
        state := sampleState, cookieCleared := false } ∧
    RefreshTokenGrant sampleEnv sampleState "r0" =
      { outcome := GrantOutcome.oauthErrorOut "invalid_grant"
          "Invalid Refresh Token",
        state := sampleState, cookieCleared := true } := by
  refine ⟨(refresh_grant_failure_protocol sampleEnv sampleState).1,
    (refresh_grant_failure_protocol sampleEnv sampleState).2.1 "zz"
      (by decide) (by decide),
    (refresh_grant_failure_protocol sampleEnv sampleState).2.2 "r0"
      sampleUser { ID := 0, UserID := 1, Token := "r0", Revoked := true }
      (by decide) (by decide) (by decide)⟩

/-- C3: password grant anti-enumeration failures.  An unknown
email+audience and a wrong password both return `invalid_grant` with the
character-for-character identical external message; an existing but
unconfirmed user returns `invalid_grant` with "Email not confirmed"; in
every one of these failure cases the result state equals the input
state, so no refresh token is created and no store write occurs. -/
theorem password_grant_failures (env : GrantEnv) (st : GrantState)
    (instanceID : Nat) (username : String) (password : List Nat)
    (aud : String) :
    (FindUserByEmailAndAudience st.users instanceID username aud = none →
      ResourceOwnerPasswordGrant env st instanceID username password aud =
        { outcome := GrantOutcome.oauthErrorOut "invalid_grant"
            "No user found with that email, or password invalid.",
          state := st, cookieCleared := false }) ∧
    (∀ user, FindUserByEmailAndAudience st.users instanceID username aud =
        some user →
      user.IsConfirmed = false →
      ResourceOwnerPasswordGrant env st instanceID username password aud =
        { outcome := GrantOutcome.oauthErrorOut "invalid_grant"
            "Email not confirmed",
          state := st, cookieCleared := false }) ∧
    (∀ user, FindUserByEmailAndAudience st.users instanceID username aud =
        some user →
      user.IsConfirmed = true →
      User.Authenticate env.B password user = some false →
      ResourceOwnerPasswordGrant env st instanceID username password aud =
        { outcome := GrantOutcome.oauthErrorOut "invalid_grant"
            "No user found with that email, or password invalid.",
          state := st, cookieCleared := false }) := by
  refine ⟨?_, ?_, ?_⟩
  · intro hf
    rw [ResourceOwnerPasswordGrant]
    simp only [hf]
  · intro user hf hconf
    rw [ResourceOwnerPasswordGrant]
    simp only [hf, hconf, Bool.not_false, if_true]
  · intro user hf hconf hauth
    rw [ResourceOwnerPasswordGrant]
    simp only [hf, hconf, Bool.not_true, if_false, hauth]
    simp

/-- An unconfirmed user for the C3 witness. -/
def sampleUnconfirmed : User :=
  { sampleUser with Email := "u2@example.com", ConfirmedAt := none }

def sampleState2 : GrantState :=
  { users := [sampleUnconfirmed], refreshTokens := [], tokenCache := [],
    auditLog := [] }

/-- Witness for C3: unknown email, unconfirmed user, wrong password. -/
theorem password_grant_failures_witness :
    ResourceOwnerPasswordGrant sampleEnv sampleState 0 "nobody@example.com"
      [104, 105] "api" =
      { outcome := GrantOutcome.oauthErrorOut "invalid_grant"
          "No user found with that email, or password invalid.",
        state := sampleState, cookieCleared := false } ∧
    ResourceOwnerPasswordGrant sampleEnv sampleState2 0 "u2@example.com"
      [104, 105] "api" =
      { outcome := GrantOutcome.oauthErrorOut "invalid_grant"
          "Email not confirmed",
        state := sampleState2, cookieCleared := false } ∧
    ResourceOwnerPasswordGrant sampleEnv sampleState 0 "user@example.com"
      [0] "api" =
      { outcome := GrantOutcome.oauthErrorOut "invalid_grant"
          "No user found with that email, or password invalid.",
        state := sampleState, cookieCleared := false } := by
  refine ⟨(password_grant_failures sampleEnv sampleState 0
      "nobody@example.com" [104, 105] "api").1 (by decide),
    (password_grant_failures sampleEnv sampleState2 0 "u2@example.com"
      [104, 105] "api").2.1 sampleUnconfirmed (by decide) (by decide),
    (password_grant_failures sampleEnv sampleState 0 "user@example.com"
      [0] "api").2.2 sampleUser (by decide) (by decide) (by decide)⟩

theorem cacheContains_of_get (c : List (String × AccessTokenResponse))
    (k : String) (v : AccessTokenResponse) (h : cacheGet c k = some v) :
    cacheContains c k = true := by
  rw [cacheGet] at h
  rw [cacheContains]
  cases hf : c.find? (fun e => e.1 == k) with
  | none => rw [hf] at h; simp at h
  | some e => simp

/-- C7: cache freshness.  On a password grant for an authenticated
confirmed user with caching enabled and a cached response present,
with `exp` the expiry claim decoded from the cached token payload: when
`now + 3600 < exp` the cached pair is returned with `ExpiresIn`
recomputed as `exp - now` and the state is unchanged (no store write);
when `exp - now ≤ 3600` the entry is evicted and the full grant
(transaction, new refresh token, newly signed access token) executes on
the evicted state instead. -/
theorem cache_freshness (env : GrantEnv) (st : GrantState)
    (instanceID : Nat) (username : String) (password : List Nat)
    (aud : String) (user : User) (cached : AccessTokenResponse)
    (payload : String)
    (hfind : FindUserByEmailAndAudience st.users instanceID username aud =
      some user)
    (hconf : user.IsConfirmed = true)
    (hauth : User.Authenticate env.B password user = some true)
    (hflag : env.enableTokenCache = true)
    (hget : cacheGet st.tokenCache user.Email = some cached)
    (hpay : payloadSegment cached.Token = some payload) :
    (env.now + 3600 < getExpiry env.parseExp payload →
      ResourceOwnerPasswordGrant env st instanceID username password aud =
        { outcome := GrantOutcome.success
            { cached with
              ExpiresIn := getExpiry env.parseExp payload - env.now },
          state := st, cookieCleared := false }) ∧
    (getExpiry env.parseExp payload - env.now ≤ 3600 →
      ResourceOwnerPasswordGrant env st instanceID username password aud =
        fullPasswordGrant env
          { st with tokenCache := cacheRemove st.tokenCache user.Email }
          user) := by
  have hcont := cacheContains_of_get st.tokenCache user.Email cached hget
  constructor
  · intro hfresh
    rw [ResourceOwnerPasswordGrant]
    simp only [hfind, hconf, Bool.not_true, if_false, hauth, hflag, hcont,
      Bool.and_self, if_true, hget, hpay]
    simp only [if_neg (by omega : ¬ env.now + 3600 ≥
      getExpiry env.parseExp payload)]
    simp
  · intro hstale
    rw [ResourceOwnerPasswordGrant]
    simp only [hfind, hconf, Bool.not_true, if_false, hauth, hflag, hcont,
      Bool.and_self, if_true, hget, hpay]
    simp only [if_pos (by omega : env.now + 3600 ≥
      getExpiry env.parseExp payload)]
    simp

/-- An environment whose `exp` parser reads payload "p" as a large
expiry, plus a state with a fresh cached response for the sample user. -/
def cacheEnvFresh : GrantEnv :=
  { sampleEnv with parseExp := fun s => if s = "p" then some 99999 else none }

def cacheEnvStale : GrantEnv :=
  { sampleEnv with parseExp := fun s => if s = "p" then some 100 else none }

def cachedResp : AccessTokenResponse :=
  { Token := "h.p.s", TokenType := "bearer", ExpiresIn := 7200,
    RefreshToken := "r0" }

def cachedState : GrantState :=
  { users := [sampleUser], refreshTokens := [],
    tokenCache := [("user@example.com", cachedResp)], auditLog := [] }

/-- Witness for C7: a fresh cached token is served with a recomputed
countdown and no state change; a stale one is evicted and the full
grant runs. -/
theorem cache_freshness_witness :
    ResourceOwnerPasswordGrant cacheEnvFresh cachedState 0
      "user@example.com" [104, 105] "api" =
      { outcome := GrantOutcome.success
          { cachedResp with ExpiresIn := 99999 - 1000 },
        state := cachedState, cookieCleared := false } ∧
    ResourceOwnerPasswordGrant cacheEnvStale cachedState 0
      "user@example.com" [104, 105] "api" =
      fullPasswordGrant cacheEnvStale
        { cachedState with
          tokenCache := cacheRemove cachedState.tokenCache "user@example.com" }
        sampleUser := by
  constructor
  · have h := (cache_freshness cacheEnvFresh cachedState 0 "user@example.com"
      [104, 105] "api" sampleUser cachedResp "p" (by decide) (by decide)
      (by decide) rfl (by decide) (by decide)).1 (by decide)
    rw [h]
    decide
  · have h := (cache_freshness cacheEnvStale cachedState 0 "user@example.com"
      [104, 105] "api" sampleUser cachedResp "p" (by decide) (by decide)
      (by decide) rfl (by decide) (by decide)).2 (by decide)
    rw [h]
    decide

/-! ## Token-cache construction (`api/api.go`, `NewAPIWithVersion`) -/

/-- Models hashicorp/golang-lru `lru.New(size)`, which by its documented
contract fails with "must provide a positive size" unless the size is
positive. -/
def lruNew (size : Int) :
    Except String (List (String × AccessTokenResponse)) :=
  if size ≤ 0 then Except.error "must provide a positive size"
  else Except.ok []

/-- Model of `NewAPIWithVersion` (api/api.go lines 161-167): construct the token
cache with `lru.New(TokenCacheSize)`; a construction error is
`log.Fatal` (process exit, modelled `none`). -/
def NewAPIWithVersion (tokenCacheSize : Int) :
    Option (List (String × AccessTokenResponse)) :=
  match lruNew tokenCacheSize with
  | Except.error _ => none
  | Except.ok c => some c

/-- C8 counterexample: with a configured capacity of zero the API does
not construct successfully, contrary to the claim — `lru.New(0)` fails
and `NewAPIWithVersion` exits through `log.Fatal` (modelled `none`). -/
theorem cache_zero_capacity_counterexample : NewAPIWithVersion 0 = none :=
  rfl

/-- C8 (amended): an absent or zero token-cache capacity does not
disable caching; it aborts API construction at boot (`lru.New` rejects
non-positive sizes and `NewAPIWithVersion` fatals).  Caching is instead
feature-flagged by `API.EnableTokenCache`: with the flag off, every
authenticated password grant executes the full uncached grant path,
skipping the cache lookup (the full grant still stores its response in
the cache unconditionally). -/
theorem cache_disable_semantics (env : GrantEnv) (st : GrantState)
    (instanceID : Nat) (username : String) (password : List Nat)
    (aud : String) (size : Int) (hsize : size ≤ 0)
    (hflag : env.enableTokenCache = false) :
    NewAPIWithVersion size = none ∧
    (∀ user, FindUserByEmailAndAudience st.users instanceID username aud =
        some user →
      user.IsConfirmed = true →
      User.Authenticate env.B password user = some true →
      ResourceOwnerPasswordGrant env st instanceID username password aud =
        fullPasswordGrant env st user) := by
  constructor
  · rw [NewAPIWithVersion, lruNew, if_pos hsize]
  · intro user hfind hconf hauth
    rw [ResourceOwnerPasswordGrant]
    simp only [hfind, hconf, Bool.not_true, if_false, hauth, hflag,
      Bool.false_and]
    simp

/-- An environment with the token cache feature flag off. -/
def sampleEnvNoCache : GrantEnv := { sampleEnv with enableTokenCache := false }

/-- Witness for C8 (amended) at capacity 0 and a concrete grant. -/
theorem cache_disable_semantics_witness :
    NewAPIWithVersion 0 = none ∧
    ResourceOwnerPasswordGrant sampleEnvNoCache cachedState 0
      "user@example.com" [104, 105] "api" =
      fullPasswordGrant sampleEnvNoCache cachedState sampleUser := by
  have h := cache_disable_semantics sampleEnvNoCache cachedState 0
    "user@example.com" [104, 105] "api" 0 (by omega) rfl
  exact ⟨h.1, h.2 sampleUser (by decide) (by decide) (by decide)⟩

/-! ## Plaintext password exposure in responses -/

/-- Go `string(bytes)`: view a byte string as text. -/
def bytesToText (l : List Nat) : List Char := l.map Char.ofNat

/-- Model of `models.NewUser`: generate a unique id, encrypt the password with a
fresh random IV (id and IV are parameters here), and populate the user
record with the base64 ciphertext and base64 IV. -/
def NewUser (B : AESBlock) (instanceID id : Nat) (email : String)
    (password : List Nat) (aud : String) (ivBytes : List Nat) :
    Option User :=
  match Encrypt B password ivBytes with
  | none => none
  | some r =>
      some { InstanceID := instanceID, ID := id, Aud := aud, Email := email,
             EncryptedPassword := r.1, EncryptionIV := r.2,
             ConfirmedAt := none }

/-- The marshaling step at the end of the `Signup` handler:
`user.EncryptedPassword = a.encrypter.Decrypt(user.EncryptedPassword,
user.EncryptionIV)` immediately before `sendJSON(w, StatusOK, user)`. -/
def signupResponseUser (B : AESBlock) (u : User) : Option User :=
  match Decrypt B u.EncryptedPassword u.EncryptionIV with
  | none => none
  | some pw => some { u with EncryptedPassword := bytesToText pw }

/-- Model of `models.FindUsersInAudience`: read the users of an audience and
replace every returned user's stored ciphertext by its decryption
before the page is returned (the optional namespace/creator/project and
text-query filters of the source are not modelled). -/
def FindUsersInAudience (B : AESBlock) (users : List User)
    (instanceID : Nat) (aud : String) : Option (List User) :=
  (users.filter (fun u => u.InstanceID == instanceID && u.Aud == aud)).mapM
    (fun u => (Decrypt B u.EncryptedPassword u.EncryptionIV).map
      (fun pw => { u with EncryptedPassword := bytesToText pw }))

/-- C10: the public HTTP interface returns the plaintext password.  For
every user record created by `NewUser` from password P, the user object
serialized by the signup response carries the decrypted password (not
the stored ciphertext) in its `encrypted_password` field, and the admin
users listing likewise returns the user with the decrypted password in
that field. -/
theorem plaintext_password_exposed (B : AESBlock) (instanceID id : Nat)
    (email aud : String) (password ivBytes : List Nat) (u : User)
    (hpw : AllBytes password) (hiv : ivBytes.length = 16)
    (hivb : AllBytes ivBytes)
    (hmk : NewUser B instanceID id email password aud ivBytes = some u) :
    signupResponseUser B u =
      some { u with EncryptedPassword := bytesToText password } ∧
    FindUsersInAudience B [u] instanceID aud =
      some [{ u with EncryptedPassword := bytesToText password }] := by
  rw [NewUser, Encrypt, EncryptWithIV, if_pos hiv] at hmk
  simp only [Option.some.injEq] at hmk
  subst hmk
  have hdec : Decrypt B
      (b64Encode ((cbcEncryptBlocks B.encBlock ivBytes
        (toBlocks (padPKCS7 password))).flatten))
      (b64Encode ivBytes) = some password :=
    Decrypt_EncryptWithIV B password ivBytes hpw hiv hivb _ _
      (by rw [EncryptWithIV, if_pos hiv])
  constructor
  · rw [signupResponseUser]
    simp only [hdec]
  · rw [FindUsersInAudience]
    simp only [List.filter_cons, List.filter_nil, beq_self_eq_true,
      Bool.and_self, if_true]
    simp only [List.mapM_cons, List.mapM_nil, hdec]
    rfl

/-- The concrete user created by the witness signup. -/
def sampleNewUser : User :=
  (NewUser incBlock 0 2 "a@b.example" [104, 105] "api" sampleIV).getD
    sampleUser

/-- Witness for C10 at a concrete signup. -/
theorem plaintext_password_exposed_witness :
    signupResponseUser incBlock sampleNewUser =
      some { sampleNewUser with
        EncryptedPassword := bytesToText [104, 105] } ∧
    FindUsersInAudience incBlock [sampleNewUser] 0 "api" =
      some [{ sampleNewUser with
        EncryptedPassword := bytesToText [104, 105] }] :=
  plaintext_password_exposed incBlock 0 2 "a@b.example" "api" [104, 105]
    sampleIV sampleNewUser (by decide) (by decide) (by decide) (by decide)

end GoTrue
